import Mathlib

/-
Verification of the task-management tool: a shallow embedding of the
deadline-consistency core (app/utils.py, app/schemas.py, app/models.py,
app/api/v1/projects.py, app/api/v1/tasks.py) and proofs of the spec claims.

Modelling conventions:
  - Python `datetime` values stored in the database are timezone-naive and
    totally ordered; they are embedded as `Int` (an instant on a linear
    time axis).  Timezone-aware input values are modelled by `PyDatetime`
    below, carrying an optional UTC offset.
  - Python `None` becomes `Option.none`.
  - Python truthiness on `int | None` values (`if task_id:`,
    `if task_create.project_id:`) is false for both `None` and `0`; the
    embedding reproduces this with explicit `0` tests.
  - `raise HTTPException` becomes `Except.error`; a NOT NULL column
    constraint violated at commit time (e.g. an explicit `null` written to
    `Project.deadline`, whose column is `nullable=False`) is
    `ApiError.integrity`, and leaves the stored state unchanged, exactly
    as the failed transaction does.
-/

namespace App

/-- HTTP error payload: status code and the detail message, as carried by
the HTTPException raised in the source. -/
structure HTTPErr where
  status : Nat
  detail : String
deriving Repr, DecidableEq

/-- Outcome of a request handler that can fail: an HTTP error raised by the
handler itself, or an integrity error raised by the store at commit time
when a NOT NULL column would receive null. -/
inductive ApiError where
  | http : Nat → String → ApiError
  | integrity : ApiError
deriving Repr, DecidableEq

/-- Single-quote character, used when interpolating the task id into the
contextual error message. -/
def sq : String := String.singleton (Char.ofNat 39)

/-- Generic rejection wording of check_deadline_consistency (app/utils.py). -/
def genericDeadlineMsg : String := "Task deadline cannot be later than project deadline."

/-- Contextual rejection wording of check_deadline_consistency
(app/utils.py): the task id is interpolated between single quotes. -/
def contextualDeadlineMsg (task_id : Int) : String :=
  "Task " ++ sq ++ toString task_id ++ sq ++ " has a deadline later than the project deadline."

/-- Selection of detail_message in check_deadline_consistency
(app/utils.py): the message starts generic and is replaced by the
contextual wording under `if task_id:`, which in Python is true only for
a present, nonzero id. -/
def ctxDetail (task_id : Option Int) : String :=
  match task_id with
  | some tid => if tid = 0 then genericDeadlineMsg else contextualDeadlineMsg tid
  | none => genericDeadlineMsg

/-- check_deadline_consistency from app/utils.py.  Returns `some e` when the
Python function raises HTTPException `e`, `none` when it returns normally.
`task_deadline and project_deadline and task_deadline > project_deadline`
is both-present-and-strictly-greater (a datetime is always truthy). -/
def check_deadline_consistency (task_deadline project_deadline : Option Int)
    (task_id : Option Int := none) : Option HTTPErr :=
  match task_deadline, project_deadline with
  | some td, some pd =>
    if pd < td then some { status := 400, detail := ctxDetail task_id }
    else none
  | _, _ => none

/-- Python datetime as received by the schema layer: the naive clock
reading `wall` (an instant on a linear axis) together with the tzinfo UTC
offset, `none` for a naive value. -/
structure PyDatetime where
  wall : Int
  utcoffset : Option Int
deriving Repr, DecidableEq

/-- Instant denoted by a PyDatetime: an aware value with offset `o` and
clock reading `w` denotes the instant `w - o`; a naive value is read as
already being in UTC. -/
def instantOf (d : PyDatetime) : Int :=
  d.wall - (d.utcoffset.getD 0)

/-- DateTimeValidatorMixin.remove_tzinfo from app/schemas.py: when the
value is present and timezone-aware, `value.astimezone(timezone.utc)`
rewrites the clock reading to UTC (subtracting the offset) and
`.replace(tzinfo=None)` drops the offset; otherwise the value passes
through unchanged. -/
def remove_tzinfo (value : Option PyDatetime) : Option PyDatetime :=
  match value with
  | none => none
  | some v =>
    match v.utcoffset with
    | some off => some { wall := v.wall - off, utcoffset := none }
    | none => some v

/-- Project row (app/models.py).  `deadline` is a NOT NULL column, so the
stored value is a plain instant. -/
structure Project where
  id : Int
  title : String
  deadline : Int
deriving Repr, DecidableEq

/-- Task row (app/models.py).  `description`, `deadline` and `project_id`
are nullable columns; `title` and `completed` are NOT NULL. -/
structure Task where
  id : Int
  title : String
  description : Option String
  deadline : Option Int
  completed : Bool
  project_id : Option Int
deriving Repr, DecidableEq

/-- Persistent store: the two tables in insertion order, plus the
autoincrement counters for the integer primary keys (SQLite assigns ids
from 1 upward). -/
structure DB where
  projects : List Project
  tasks : List Task
  nextProjectId : Int
  nextTaskId : Int
deriving Repr, DecidableEq

/-- The store before any operation has run. -/
def DB.empty : DB := ⟨[], [], 1, 1⟩

/-- db.get(models.Project, pid). -/
def findProject (db : DB) (pid : Int) : Option Project :=
  db.projects.find? (fun p => p.id == pid)

/-- db.get(models.Task, tid). -/
def findTask (db : DB) (tid : Int) : Option Task :=
  db.tasks.find? (fun t => t.id == tid)

/-- db_project.tasks: the relationship loads every task whose project_id
column equals the project id, in insertion order. -/
def projectTasks (db : DB) (pid : Int) : List Task :=
  db.tasks.filter (fun t => t.project_id == some pid)

/-- ProjectCreate schema (app/schemas.py): title and deadline are required;
the deadline has already been canonicalised by remove_tzinfo. -/
structure ProjectCreate where
  title : String
  deadline : Int
deriving Repr, DecidableEq

/-- ProjectUpdate schema (app/schemas.py).  Each field is
presence-of-a-possibly-null-value: the outer Option records whether the
field was set in the request body (pydantic exclude_unset), the inner
Option is the JSON value itself, which may be null. -/
structure ProjectUpdate where
  title : Option (Option String) := none
  deadline : Option (Option Int) := none
deriving Repr, DecidableEq

/-- TaskCreate schema (app/schemas.py). -/
structure TaskCreate where
  title : String
  description : Option String := none
  deadline : Option Int := none
  completed : Bool := false
  project_id : Option Int := none
deriving Repr, DecidableEq

/-- TaskUpdate schema (app/schemas.py), with the same
presence-versus-null encoding as ProjectUpdate. -/
structure TaskUpdate where
  title : Option (Option String) := none
  description : Option (Option String) := none
  deadline : Option (Option Int) := none
  completed : Option (Option Bool) := none
  project_id : Option (Option Int) := none
deriving Repr, DecidableEq

/-- create_project (app/api/v1/projects.py): insert a new row with the
next generated id.  Cannot fail at this layer (required fields were
enforced by the validation layer with 422 before the handler runs). -/
def create_project (db : DB) (p : ProjectCreate) : DB :=
  { db with
    projects := db.projects ++ [⟨db.nextProjectId, p.title, p.deadline⟩]
    nextProjectId := db.nextProjectId + 1 }

/-- Loop of update_project: `for task in db_project.tasks:
check_deadline_consistency(task.deadline, project_update.deadline,
task_id=task.id)`; the first raised exception aborts the loop. -/
def checkTasksAgainst (ts : List Task) (newDeadline : Int) : Option HTTPErr :=
  match ts with
  | [] => none
  | t :: rest =>
    match check_deadline_consistency t.deadline (some newDeadline) (some t.id) with
    | some e => some e
    | none => checkTasksAgainst rest newDeadline

/-- Guard `if project_update.deadline:` of update_project: the deadline
value is truthy exactly when the field is present and non-null, and only
then does the loop over the owned tasks run. -/
def projectUpdateValidation (db : DB) (project_id : Int) (u : ProjectUpdate) : Option HTTPErr :=
  match u.deadline with
  | some (some newDeadline) => checkTasksAgainst (projectTasks db project_id) newDeadline
  | _ => none

/-- Write of one field present in an update body (pydantic exclude_unset)
into a NOT NULL column: an explicit null is accepted by the schema but
rejected by the store at commit, rolling the transaction back. -/
def setNotNull {α : Type} (cur : α) (f : Option (Option α)) : Except ApiError α :=
  match f with
  | none => Except.ok cur
  | some (some v) => Except.ok v
  | some none => Except.error ApiError.integrity

/-- Write of one field present in an update body into a nullable column:
an absent field keeps the stored value, a present field (null included)
replaces it. -/
def setNullable {α : Type} (cur : Option α) (f : Option (Option α)) : Option α :=
  match f with
  | none => cur
  | some v => v

/-- Field application of update_project: setattr for every field present
in the body, with the NOT NULL constraints of the title and deadline
columns enforced at commit. -/
def applyProjectUpdate (proj : Project) (u : ProjectUpdate) : Except ApiError Project :=
  match setNotNull proj.title u.title with
  | Except.error e => Except.error e
  | Except.ok title =>
    match setNotNull proj.deadline u.deadline with
    | Except.error e => Except.error e
    | Except.ok deadline => Except.ok ⟨proj.id, title, deadline⟩

/-- update_project (app/api/v1/projects.py): 404 when the id is unknown;
when the body carries a truthy deadline, every owned task is checked
against it with the task id as context, and the first violation aborts
the request before any field is written; otherwise the present fields
are applied and committed. -/
def update_project (db : DB) (project_id : Int) (u : ProjectUpdate) : Except ApiError DB :=
  match findProject db project_id with
  | none => Except.error (ApiError.http 404 "Project not found")
  | some proj =>
    match projectUpdateValidation db project_id u with
    | some e => Except.error (ApiError.http e.status e.detail)
    | none =>
      match applyProjectUpdate proj u with
      | Except.error e => Except.error e
      | Except.ok proj2 =>
        Except.ok { db with
          projects := db.projects.map (fun p => if p.id == project_id then proj2 else p) }

/-- delete_project (app/api/v1/projects.py): 404 when the id is unknown;
otherwise `db.delete(db_project)` removes the row, and — because the
relationship in app/models.py carries no delete cascade and the foreign
key is nullable — the store de-associates the owned tasks by writing
NULL to their project_id column. -/
def delete_project (db : DB) (project_id : Int) : Except ApiError DB :=
  match findProject db project_id with
  | none => Except.error (ApiError.http 404 "Project not found")
  | some _ =>
    Except.ok { db with
      projects := db.projects.filter (fun p => !(p.id == project_id))
      tasks := db.tasks.map (fun t =>
        if t.project_id == some project_id then { t with project_id := none } else t) }

/-- Shared guard of create_task and update_task: `if <project id>:` is
Python truthiness, so a present nonzero project id triggers the project
lookup (404 on absence) and the deadline check with no context, while an
absent id — or the falsy id 0 — skips both. -/
def projectRefValidation (db : DB) (pidOpt : Option Int) (dl : Option Int) : Option ApiError :=
  match pidOpt with
  | some pid =>
    if pid = 0 then none
    else
      match findProject db pid with
      | none => some (ApiError.http 404 "Project not found")
      | some proj =>
        match check_deadline_consistency dl (some proj.deadline) none with
        | some e => some (ApiError.http e.status e.detail)
        | none => none
  | none => none

/-- create_task (app/api/v1/tasks.py): validate the requested project
reference (if truthy) and the deadline against it, then insert the row
with the next generated id. -/
def create_task (db : DB) (tc : TaskCreate) : Except ApiError DB :=
  match projectRefValidation db tc.project_id tc.deadline with
  | some e => Except.error e
  | none =>
    Except.ok { db with
      tasks := db.tasks ++
        [⟨db.nextTaskId, tc.title, tc.description, tc.deadline, tc.completed, tc.project_id⟩]
      nextTaskId := db.nextTaskId + 1 }

/-- Line `new_task_project_id = task_update.project_id if
task_update.project_id is not None else db_task.project_id` of
update_task: at this point Python sees only the field value, so an unset
field and an explicit null both fall back to the stored value. -/
def effectiveProjectId (task : Task) (u : TaskUpdate) : Option Int :=
  match u.project_id with
  | some (some p) => some p
  | _ => task.project_id

/-- Line `new_task_deadline = task_update.deadline if task_update.deadline
is not None else db_task.deadline` of update_task. -/
def effectiveDeadline (task : Task) (u : TaskUpdate) : Option Int :=
  match u.deadline with
  | some (some d) => some d
  | _ => task.deadline

/-- Field application of update_task: setattr for every field present in
the body, with the NOT NULL constraints of the title and completed
columns enforced at commit. -/
def applyTaskUpdate (t : Task) (u : TaskUpdate) : Except ApiError Task :=
  match setNotNull t.title u.title with
  | Except.error e => Except.error e
  | Except.ok title =>
    match setNotNull t.completed u.completed with
    | Except.error e => Except.error e
    | Except.ok completed =>
      Except.ok ⟨t.id, title, setNullable t.description u.description,
        setNullable t.deadline u.deadline, completed, setNullable t.project_id u.project_id⟩

/-- update_task (app/api/v1/tasks.py): 404 when the task id is unknown;
the effective project id and deadline are merged from the body and the
stored row before validation; the shared project-reference guard runs on
the merged values; finally the present fields are applied and
committed. -/
def update_task (db : DB) (task_id : Int) (u : TaskUpdate) : Except ApiError DB :=
  match findTask db task_id with
  | none => Except.error (ApiError.http 404 "Task not found")
  | some task =>
    match projectRefValidation db (effectiveProjectId task u) (effectiveDeadline task u) with
    | some e => Except.error e
    | none =>
      match applyTaskUpdate task u with
      | Except.error e => Except.error e
      | Except.ok task2 =>
        Except.ok { db with
          tasks := db.tasks.map (fun t => if t.id == task_id then task2 else t) }

/-- delete_task (app/api/v1/tasks.py): 404 when the id is unknown,
otherwise the row is removed. -/
def delete_task (db : DB) (task_id : Int) : Except ApiError DB :=
  match findTask db task_id with
  | none => Except.error (ApiError.http 404 "Task not found")
  | some _ => Except.ok { db with tasks := db.tasks.filter (fun t => !(t.id == task_id)) }

/-- link_task_to_project (app/api/v1/tasks.py): the task is fetched first
(404 "Task not found"), then the project (404 "Project not found"), then
the stored task deadline is checked against the project deadline with no
context, and only then is project_id reassigned and committed. -/
def link_task_to_project (db : DB) (task_id project_id : Int) : Except ApiError DB :=
  match findTask db task_id with
  | none => Except.error (ApiError.http 404 "Task not found")
  | some task =>
    match findProject db project_id with
    | none => Except.error (ApiError.http 404 "Project not found")
    | some proj =>
      match check_deadline_consistency task.deadline (some proj.deadline) none with
      | some e => Except.error (ApiError.http e.status e.detail)
      | none =>
        Except.ok { db with
          tasks := db.tasks.map (fun t =>
            if t.id == task_id then { task with project_id := some project_id } else t) }

/-- One mutating request against the store. -/
inductive Op where
  | projCreate : ProjectCreate → Op
  | projUpdate : Int → ProjectUpdate → Op
  | projDelete : Int → Op
  | taskCreate : TaskCreate → Op
  | taskUpdate : Int → TaskUpdate → Op
  | taskDelete : Int → Op
  | taskLink : Int → Int → Op
deriving Repr, DecidableEq

/-- Result state of one request: on any error the transaction is rolled
back and the store is unchanged. -/
def runOp (db : DB) : Op → DB
  | Op.projCreate p => create_project db p
  | Op.projUpdate pid u =>
    match update_project db pid u with
    | Except.ok db2 => db2
    | Except.error _ => db
  | Op.projDelete pid =>
    match delete_project db pid with
    | Except.ok db2 => db2
    | Except.error _ => db
  | Op.taskCreate tc =>
    match create_task db tc with
    | Except.ok db2 => db2
    | Except.error _ => db
  | Op.taskUpdate tid u =>
    match update_task db tid u with
    | Except.ok db2 => db2
    | Except.error _ => db
  | Op.taskDelete tid =>
    match delete_task db tid with
    | Except.ok db2 => db2
    | Except.error _ => db
  | Op.taskLink tid pid =>
    match link_task_to_project db tid pid with
    | Except.ok db2 => db2
    | Except.error _ => db

/-- States producible from the empty store by a sequence of requests. -/
inductive Reachable : DB → Prop where
  | empty : Reachable DB.empty
  | step (op : Op) {db : DB} : Reachable db → Reachable (runOp db op)

/-- Sample project used in concrete instantiations. -/
def sampleProj : Project := ⟨1, "p", 10⟩

/-- Sample task owned by sampleProj with a deadline inside the project
deadline. -/
def sampleTask : Task := ⟨1, "t", none, some 8, false, some 1⟩

/-- Sample store holding sampleProj and sampleTask; equal to the state
reached from the empty store by creating the project and then the
task. -/
def sampleDB : DB := ⟨[sampleProj], [sampleTask], 2, 2⟩

/-- Project with a tight deadline, for rejection scenarios. -/
def tightProj : Project := ⟨1, "p", 5⟩

/-- Task whose deadline exceeds tightProj's deadline while owned by it. -/
def lateTask : Task := ⟨1, "t", none, some 7, false, some 1⟩

/-- Store holding tightProj and lateTask (note: not a reachable state; it
feeds theorems whose hypotheses do not need reachability). -/
def tightDB : DB := ⟨[tightProj], [lateTask], 2, 2⟩

/-- Unowned task whose deadline exceeds tightProj's deadline. -/
def freeTask : Task := ⟨1, "t", none, some 7, false, none⟩

/-- Store holding tightProj and the unowned freeTask. -/
def linkDB : DB := ⟨[tightProj], [freeTask], 2, 2⟩

/-- Task update body with no field set. -/
def noTaskUpd : TaskUpdate := ⟨none, none, none, none, none⟩

/-- Task created with the falsy project id 0, which create_task accepts
without consulting the store. -/
def zeroTask : Task := ⟨1, "t0", none, none, false, some 0⟩

/-- State reached from the empty store by creating zeroTask. -/
def zeroDB : DB := ⟨[], [zeroTask], 1, 2⟩

/-- State reached from the empty store by creating zeroTask, then a
project, then a task owned by that project. -/
def dangleDB : DB := ⟨[⟨1, "p", 10⟩], [zeroTask, ⟨2, "t1", none, none, false, some 1⟩], 2, 3⟩

/-- Result of deleting project 1 from dangleDB: the owned task is
unlinked, while zeroTask keeps its dangling reference to id 0. -/
def dangleDB2 : DB := ⟨[], [zeroTask, ⟨2, "t1", none, none, false, none⟩], 2, 3⟩

/-- Store with one project owning one deadline-free task. -/
def ownedDB : DB := ⟨[⟨1, "p", 10⟩], [⟨1, "t", none, none, false, some 1⟩], 2, 2⟩

/-- Result of deleting project 1 from ownedDB. -/
def ownedDB2 : DB := ⟨[], [⟨1, "t", none, none, false, none⟩], 2, 2⟩

/-- Update body carrying a deadline later than sampleProj's deadline. -/
def lateUpd : TaskUpdate := ⟨none, none, some (some 12), none, none⟩

/-- Update body setting the deadline to 9 and explicitly nulling
project_id, as a JSON body with "deadline" set and "project_id": null. -/
def unlinkUpd : TaskUpdate := ⟨none, none, some (some 9), none, some none⟩

/-- Result of applying unlinkUpd to sampleDB: the stored deadline became
9 and the stored project reference became null. -/
def unlinkedDB : DB := ⟨[sampleProj], [⟨1, "t", none, some 9, false, none⟩], 2, 2⟩

/-- Deadline-consistency invariant of the data model: every task whose
project_id names a stored project and whose deadline is present has a
deadline no later than that project's deadline. -/
def DeadlineInvariant (db : DB) : Prop :=
  ∀ t ∈ db.tasks, ∀ p ∈ db.projects, t.project_id = some p.id →
    ∀ td, t.deadline = some td → td ≤ p.deadline

/-- Well-formedness of a store state, as maintained by the handlers
together with the id generator: generated ids are positive, bounded by
the counters and duplicate-free; every project reference of a task is
either the falsy id 0 (which the guards never inspect) or names a stored
project; and the deadline invariant holds. -/
structure WF (db : DB) : Prop where
  nextProjectPos : 1 ≤ db.nextProjectId
  nextTaskPos : 1 ≤ db.nextTaskId
  projIdBound : ∀ p ∈ db.projects, 1 ≤ p.id ∧ p.id < db.nextProjectId
  taskIdBound : ∀ t ∈ db.tasks, 1 ≤ t.id ∧ t.id < db.nextTaskId
  projNodup : (db.projects.map Project.id).Nodup
  taskNodup : (db.tasks.map Task.id).Nodup
  refsValid : ∀ t ∈ db.tasks, ∀ k, t.project_id = some k →
    k = 0 ∨ ∃ p ∈ db.projects, p.id = k
  inv : DeadlineInvariant db

theorem check_none_le {td pd : Int} {ctx : Option Int}
    (h : check_deadline_consistency (some td) (some pd) ctx = none) : td ≤ pd := by
  by_cases hlt : pd < td
  · unfold check_deadline_consistency at h
    simp [hlt] at h
  · omega

theorem check_some_of_lt {td pd : Int} (ctx : Option Int) (h : pd < td) :
    check_deadline_consistency (some td) (some pd) ctx = some ⟨400, ctxDetail ctx⟩ := by
  unfold check_deadline_consistency
  simp [h]

theorem check_some_elim {td pd : Option Int} {ctx : Option Int} {e : HTTPErr}
    (h : check_deadline_consistency td pd ctx = some e) :
    ∃ a b, td = some a ∧ pd = some b ∧ b < a ∧ e = ⟨400, ctxDetail ctx⟩ := by
  rcases td with _ | a <;> rcases pd with _ | b <;>
    unfold check_deadline_consistency at h <;> simp at h
  obtain ⟨hlt, he⟩ := h
  exact ⟨a, b, rfl, rfl, hlt, he.symm⟩

theorem findProject_mem {db : DB} {pid : Int} {proj : Project}
    (h : findProject db pid = some proj) : proj ∈ db.projects ∧ proj.id = pid := by
  unfold findProject at h
  exact ⟨List.mem_of_find?_eq_some h, by simpa using List.find?_some h⟩

theorem findTask_mem {db : DB} {tid : Int} {task : Task}
    (h : findTask db tid = some task) : task ∈ db.tasks ∧ task.id = tid := by
  unfold findTask at h
  exact ⟨List.mem_of_find?_eq_some h, by simpa using List.find?_some h⟩

theorem findProject_none {db : DB} {pid : Int} (h : findProject db pid = none) :
    ∀ p ∈ db.projects, p.id ≠ pid := by
  intro p hp
  have := List.find?_eq_none.mp h p hp
  simpa using this

theorem checkTasksAgainst_none {ts : List Task} {d : Int}
    (h : checkTasksAgainst ts d = none) :
    ∀ t ∈ ts, check_deadline_consistency t.deadline (some d) (some t.id) = none := by
  induction ts with
  | nil => simp
  | cons hd rest ih =>
    intro t ht
    unfold checkTasksAgainst at h
    cases hc : check_deadline_consistency hd.deadline (some d) (some hd.id) with
    | some e => rw [hc] at h; exact absurd h (by simp)
    | none =>
      rw [hc] at h
      rcases List.mem_cons.mp ht with rfl | hmem
      · exact hc
      · exact ih h t hmem

theorem checkTasksAgainst_some_of_violation {ts : List Task} {d : Int}
    (hex : ∃ t ∈ ts, ∃ td, t.deadline = some td ∧ d < td) :
    ∃ t ∈ ts, ∃ td, t.deadline = some td ∧ d < td ∧
      checkTasksAgainst ts d = some ⟨400, ctxDetail (some t.id)⟩ := by
  induction ts with
  | nil => simp at hex
  | cons hd rest ih =>
    cases hc : check_deadline_consistency hd.deadline (some d) (some hd.id) with
    | some e =>
      obtain ⟨a, b, ha, hb, hlt, he⟩ := check_some_elim hc
      refine ⟨hd, List.mem_cons_self hd rest, a, ha, ?_, ?_⟩
      · injection hb with hb2; omega
      · unfold checkTasksAgainst
        rw [hc, he]
    | none =>
      have hhd : ∀ td, hd.deadline = some td → ¬ d < td := by
        intro td htd hlt
        rw [htd, check_some_of_lt (some hd.id) hlt] at hc
        exact absurd hc (by simp)
      have hex2 : ∃ t ∈ rest, ∃ td, t.deadline = some td ∧ d < td := by
        obtain ⟨t, ht, td, htd, hlt⟩ := hex
        rcases List.mem_cons.mp ht with rfl | hmem
        · exact absurd hlt (hhd td htd)
        · exact ⟨t, hmem, td, htd, hlt⟩
      obtain ⟨t, ht, td, htd, hlt, heq⟩ := ih hex2
      refine ⟨t, List.mem_cons_of_mem hd ht, td, htd, hlt, ?_⟩
      unfold checkTasksAgainst
      rw [hc]
      exact heq

theorem setNotNull_ok {α : Type} {cur v : α} {f : Option (Option α)}
    (h : setNotNull cur f = Except.ok v) : f = none ∧ v = cur ∨ f = some (some v) := by
  rcases f with _ | (_ | w) <;> unfold setNotNull at h <;> simp at h <;> simp [h]

theorem applyProjectUpdate_ok {proj proj2 : Project} {u : ProjectUpdate}
    (h : applyProjectUpdate proj u = Except.ok proj2) :
    proj2.id = proj.id ∧
      (u.deadline = none ∧ proj2.deadline = proj.deadline ∨
        u.deadline = some (some proj2.deadline)) := by
  unfold applyProjectUpdate at h
  cases ht : setNotNull proj.title u.title with
  | error e => rw [ht] at h; exact absurd h (by simp)
  | ok title =>
    rw [ht] at h
    cases hd : setNotNull proj.deadline u.deadline with
    | error e => rw [hd] at h; exact absurd h (by simp)
    | ok deadline =>
      rw [hd] at h
      have h2 : proj2 = ⟨proj.id, title, deadline⟩ := by
        injection h with h3; exact h3.symm
      subst h2
      rcases setNotNull_ok hd with ⟨hf, hv⟩ | hf
      · exact ⟨rfl, Or.inl ⟨hf, hv⟩⟩
      · exact ⟨rfl, Or.inr hf⟩

theorem applyTaskUpdate_ok {task task2 : Task} {u : TaskUpdate}
    (h : applyTaskUpdate task u = Except.ok task2) :
    task2.id = task.id ∧ task2.deadline = setNullable task.deadline u.deadline ∧
      task2.project_id = setNullable task.project_id u.project_id := by
  unfold applyTaskUpdate at h
  cases ht : setNotNull task.title u.title with
  | error e => rw [ht] at h; exact absurd h (by simp)
  | ok title =>
    rw [ht] at h
    cases hc : setNotNull task.completed u.completed with
    | error e => rw [hc] at h; exact absurd h (by simp)
    | ok completed =>
      rw [hc] at h
      have h2 : task2 = ⟨task.id, title, setNullable task.description u.description,
          setNullable task.deadline u.deadline, completed,
          setNullable task.project_id u.project_id⟩ := by
        injection h with h3; exact h3.symm
      subst h2
      exact ⟨rfl, rfl, rfl⟩

theorem effectiveDeadline_of_set {task : Task} {u : TaskUpdate} {d : Int}
    (h : setNullable task.deadline u.deadline = some d) :
    effectiveDeadline task u = some d := by
  rcases hu : u.deadline with _ | (_ | w) <;>
    rw [hu] at h <;> unfold setNullable at h <;> unfold effectiveDeadline <;>
    rw [hu] <;> simp_all

theorem effectiveProjectId_of_set {task : Task} {u : TaskUpdate} {k : Int}
    (h : setNullable task.project_id u.project_id = some k) :
    effectiveProjectId task u = some k := by
  rcases hu : u.project_id with _ | (_ | w) <;>
    rw [hu] at h <;> unfold setNullable at h <;> unfold effectiveProjectId <;>
    rw [hu] <;> simp_all

theorem projectRefValidation_none_elim {db : DB} {dl : Option Int} {k : Int}
    (hk0 : k ≠ 0) (h : projectRefValidation db (some k) dl = none) :
    ∃ proj, findProject db k = some proj ∧
      check_deadline_consistency dl (some proj.deadline) none = none := by
  unfold projectRefValidation at h
  simp only at h
  rw [if_neg hk0] at h
  split at h
  next hf => exact absurd h (by simp)
  next proj hf =>
    split at h
    next e hc => exact absurd h (by simp)
    next hc => exact ⟨proj, hf, hc⟩

theorem update_project_ok_elim {db : DB} {pid : Int} {u : ProjectUpdate} {db2 : DB}
    (h : update_project db pid u = Except.ok db2) :
    ∃ proj proj2, findProject db pid = some proj ∧
      projectUpdateValidation db pid u = none ∧
      applyProjectUpdate proj u = Except.ok proj2 ∧
      db2 = { db with
        projects := db.projects.map (fun p => if p.id == pid then proj2 else p) } := by
  unfold update_project at h
  split at h
  next hf => exact absurd h (by simp)
  next proj hf =>
    split at h
    next e hv => exact absurd h (by simp)
    next hv =>
      split at h
      next e ha => exact absurd h (by simp)
      next proj2 ha =>
        injection h with h2
        exact ⟨proj, proj2, hf, hv, ha, h2.symm⟩

theorem delete_project_ok_elim {db : DB} {pid : Int} {db2 : DB}
    (h : delete_project db pid = Except.ok db2) :
    (findProject db pid).isSome ∧
      db2 = { db with
        projects := db.projects.filter (fun p => !(p.id == pid))
        tasks := db.tasks.map (fun t =>
          if t.project_id == some pid then { t with project_id := none } else t) } := by
  unfold delete_project at h
  split at h
  next hf => exact absurd h (by simp)
  next proj hf =>
    injection h with h2
    exact ⟨by rw [hf]; rfl, h2.symm⟩

theorem create_task_ok_elim {db : DB} {tc : TaskCreate} {db2 : DB}
    (h : create_task db tc = Except.ok db2) :
    projectRefValidation db tc.project_id tc.deadline = none ∧
      db2 = { db with
        tasks := db.tasks ++
          [⟨db.nextTaskId, tc.title, tc.description, tc.deadline, tc.completed, tc.project_id⟩]
        nextTaskId := db.nextTaskId + 1 } := by
  unfold create_task at h
  split at h
  next e hv => exact absurd h (by simp)
  next hv =>
    injection h with h2
    exact ⟨hv, h2.symm⟩

theorem update_task_ok_elim {db : DB} {tid : Int} {u : TaskUpdate} {db2 : DB}
    (h : update_task db tid u = Except.ok db2) :
    ∃ task task2, findTask db tid = some task ∧
      projectRefValidation db (effectiveProjectId task u) (effectiveDeadline task u) = none ∧
      applyTaskUpdate task u = Except.ok task2 ∧
      db2 = { db with
        tasks := db.tasks.map (fun t => if t.id == tid then task2 else t) } := by
  unfold update_task at h
  split at h
  next hf => exact absurd h (by simp)
  next task hf =>
    split at h
    next e hv => exact absurd h (by simp)
    next hv =>
      split at h
      next e ha => exact absurd h (by simp)
      next task2 ha =>
        injection h with h2
        exact ⟨task, task2, hf, hv, ha, h2.symm⟩

theorem delete_task_ok_elim {db : DB} {tid : Int} {db2 : DB}
    (h : delete_task db tid = Except.ok db2) :
    db2 = { db with tasks := db.tasks.filter (fun t => !(t.id == tid)) } := by
  unfold delete_task at h
  split at h
  next hf => exact absurd h (by simp)
  next task hf =>
    injection h with h2
    exact h2.symm

theorem link_ok_elim {db : DB} {tid pid : Int} {db2 : DB}
    (h : link_task_to_project db tid pid = Except.ok db2) :
    ∃ task proj, findTask db tid = some task ∧ findProject db pid = some proj ∧
      check_deadline_consistency task.deadline (some proj.deadline) none = none ∧
      db2 = { db with
        tasks := db.tasks.map (fun t =>
          if t.id == tid then { task with project_id := some pid } else t) } := by
  unfold link_task_to_project at h
  split at h
  next hf => exact absurd h (by simp)
  next task hf =>
    split at h
    next hp => exact absurd h (by simp)
    next proj hp =>
      split at h
      next e hc => exact absurd h (by simp)
      next hc =>
        injection h with h2
        exact ⟨task, proj, hf, hp, hc, h2.symm⟩

theorem map_comp_id_eq {α β : Type} {l : List α} {g : α → α} {f : α → β}
    (hg : ∀ x, f (g x) = f x) : (l.map g).map f = l.map f := by
  rw [List.map_map]
  exact List.map_congr_left (fun x _ => hg x)

theorem wf_empty : WF DB.empty := by
  refine ⟨le_refl 1, le_refl 1, ?_, ?_, ?_, ?_, ?_, ?_⟩ <;> simp [DB.empty, DeadlineInvariant]

theorem wf_create_project {db : DB} (hwf : WF db) (p : ProjectCreate) :
    WF (create_project db p) := by
  obtain ⟨hnp, hnt, hpb, htb, hpn, htn, hrv, hinv⟩ := hwf
  have hnew : ∀ q ∈ db.projects, q.id ≠ db.nextProjectId := by
    intro q hq
    have := (hpb q hq).2
    omega
  refine ⟨?_, hnt, ?_, htb, ?_, htn, ?_, ?_⟩
  · show 1 ≤ db.nextProjectId + 1
    omega
  · intro q hq
    show 1 ≤ q.id ∧ q.id < db.nextProjectId + 1
    rcases List.mem_append.mp hq with hq | hq
    · have := hpb q hq
      constructor <;> omega
    · have hq2 : q = ⟨db.nextProjectId, p.title, p.deadline⟩ := by simpa using hq
      subst hq2
      refine ⟨hnp, ?_⟩
      show db.nextProjectId < db.nextProjectId + 1
      omega
  · show ((db.projects ++ [(⟨db.nextProjectId, p.title, p.deadline⟩ : Project)]).map Project.id).Nodup
    rw [List.map_append, List.nodup_append]
    refine ⟨hpn, by simp, ?_⟩
    intro x hx hx2
    simp only [List.map_cons, List.map_nil, List.mem_singleton] at hx2
    subst hx2
    obtain ⟨q, hq, hqid⟩ := List.mem_map.mp hx
    exact hnew q hq hqid
  · intro t ht k hk
    rcases hrv t ht k hk with h0 | ⟨q, hq, hqk⟩
    · exact Or.inl h0
    · exact Or.inr ⟨q, List.mem_append_left _ hq, hqk⟩
  · intro t ht q hq hpid td htd
    rcases List.mem_append.mp hq with hq | hq
    · exact hinv t ht q hq hpid td htd
    · exfalso
      have hq2 : q = ⟨db.nextProjectId, p.title, p.deadline⟩ := by simpa using hq
      subst hq2
      rcases hrv t ht _ hpid with h0 | ⟨r, hr, hrid⟩
      · have h0b : db.nextProjectId = 0 := h0
        omega
      · have := (hpb r hr).2
        have hrid2 : r.id = db.nextProjectId := hrid
        omega

theorem wf_delete_task {db : DB} {tid : Int} {db2 : DB} (hwf : WF db)
    (h : delete_task db tid = Except.ok db2) : WF db2 := by
  obtain ⟨hnp, hnt, hpb, htb, hpn, htn, hrv, hinv⟩ := hwf
  obtain rfl := delete_task_ok_elim h
  refine ⟨hnp, hnt, hpb, ?_, hpn, ?_, ?_, ?_⟩
  · intro t ht
    exact htb t (List.mem_of_mem_filter ht)
  · exact List.Pairwise.sublist ((List.filter_sublist _).map _) htn
  · intro t ht k hk
    exact hrv t (List.mem_of_mem_filter ht) k hk
  · intro t ht q hq hpid td htd
    exact hinv t (List.mem_of_mem_filter ht) q hq hpid td htd

theorem wf_delete_project {db : DB} {pid : Int} {db2 : DB} (hwf : WF db)
    (h : delete_project db pid = Except.ok db2) : WF db2 := by
  obtain ⟨hnp, hnt, hpb, htb, hpn, htn, hrv, hinv⟩ := hwf
  obtain ⟨hfs, rfl⟩ := delete_project_ok_elim h
  have hgid : ∀ t : Task,
      (if t.project_id == some pid then { t with project_id := none } else t).id = t.id := by
    intro t
    split <;> rfl
  refine ⟨hnp, hnt, ?_, ?_, ?_, ?_, ?_, ?_⟩
  · intro q hq
    exact hpb q (List.mem_of_mem_filter hq)
  · intro t2 ht2
    obtain ⟨t, ht, rfl⟩ := List.mem_map.mp ht2
    rw [hgid t]
    exact htb t ht
  · exact List.Pairwise.sublist ((List.filter_sublist _).map _) hpn
  · rw [map_comp_id_eq hgid]
    exact htn
  · intro t2 ht2 k hk
    obtain ⟨t, ht, rfl⟩ := List.mem_map.mp ht2
    by_cases hb : (t.project_id == some pid) = true
    · rw [if_pos hb] at hk
      exact absurd hk (by simp)
    · rw [if_neg hb] at hk
      have hkne : k ≠ pid := by
        intro hkp
        subst hkp
        rw [hk] at hb
        simp at hb
      rcases hrv t ht k hk with h0 | ⟨q, hq, hqk⟩
      · exact Or.inl h0
      · refine Or.inr ⟨q, List.mem_filter.mpr ⟨hq, ?_⟩, hqk⟩
        simp [hqk, hkne]
  · intro t2 ht2 q hq hpid td htd
    obtain ⟨t, ht, rfl⟩ := List.mem_map.mp ht2
    have hq2 := List.mem_of_mem_filter hq
    by_cases hb : (t.project_id == some pid) = true
    · rw [if_pos hb] at hpid
      exact absurd hpid (by simp)
    · rw [if_neg hb] at hpid htd
      exact hinv t ht q hq2 hpid td htd

theorem wf_create_task {db : DB} {tc : TaskCreate} {db2 : DB} (hwf : WF db)
    (h : create_task db tc = Except.ok db2) : WF db2 := by
  obtain ⟨hnp, hnt, hpb, htb, hpn, htn, hrv, hinv⟩ := hwf
  obtain ⟨hv, rfl⟩ := create_task_ok_elim h
  have hnewt : ∀ t ∈ db.tasks, t.id ≠ db.nextTaskId := by
    intro t ht
    have := (htb t ht).2
    omega
  refine ⟨hnp, ?_, hpb, ?_, hpn, ?_, ?_, ?_⟩
  · show 1 ≤ db.nextTaskId + 1
    omega
  · intro t ht
    show 1 ≤ t.id ∧ t.id < db.nextTaskId + 1
    rcases List.mem_append.mp ht with ht | ht
    · have := htb t ht
      constructor <;> omega
    · have ht2 : t = ⟨db.nextTaskId, tc.title, tc.description, tc.deadline,
          tc.completed, tc.project_id⟩ := by simpa using ht
      subst ht2
      refine ⟨hnt, ?_⟩
      show db.nextTaskId < db.nextTaskId + 1
      omega
  · rw [List.map_append, List.nodup_append]
    refine ⟨htn, by simp, ?_⟩
    intro x hx hx2
    simp only [List.map_cons, List.map_nil, List.mem_singleton] at hx2
    subst hx2
    obtain ⟨t, ht, htid⟩ := List.mem_map.mp hx
    exact hnewt t ht htid
  · intro t ht k hk
    rcases List.mem_append.mp ht with ht | ht
    · exact hrv t ht k hk
    · have ht2 : t = ⟨db.nextTaskId, tc.title, tc.description, tc.deadline,
          tc.completed, tc.project_id⟩ := by simpa using ht
      subst ht2
      by_cases hk0 : k = 0
      · exact Or.inl hk0
      · have hv2 : projectRefValidation db (some k) tc.deadline = none := by
          rw [← hk]
          exact hv
        obtain ⟨proj, hfp, _⟩ := projectRefValidation_none_elim hk0 hv2
        obtain ⟨hm, hid⟩ := findProject_mem hfp
        exact Or.inr ⟨proj, hm, hid⟩
  · intro t ht q hq hpid td htd
    rcases List.mem_append.mp ht with ht | ht
    · exact hinv t ht q hq hpid td htd
    · have ht2 : t = ⟨db.nextTaskId, tc.title, tc.description, tc.deadline,
          tc.completed, tc.project_id⟩ := by simpa using ht
      subst ht2
      have hq0 : q.id ≠ 0 := by
        have := (hpb q hq).1
        omega
      have hv2 : projectRefValidation db (some q.id) tc.deadline = none := by
        rw [← hpid]
        exact hv
      obtain ⟨proj, hfp, hc⟩ := projectRefValidation_none_elim hq0 hv2
      obtain ⟨hm, hid⟩ := findProject_mem hfp
      have hpq : proj = q := List.inj_on_of_nodup_map hpn hm hq hid
      subst hpq
      have htd2 : tc.deadline = some td := htd
      rw [htd2] at hc
      exact check_none_le hc

theorem wf_update_project {db : DB} {pid : Int} {u : ProjectUpdate} {db2 : DB} (hwf : WF db)
    (h : update_project db pid u = Except.ok db2) : WF db2 := by
  obtain ⟨hnp, hnt, hpb, htb, hpn, htn, hrv, hinv⟩ := hwf
  obtain ⟨proj, proj2, hf, hval, ha, rfl⟩ := update_project_ok_elim h
  obtain ⟨hpm, hpid⟩ := findProject_mem hf
  obtain ⟨hid2, hdl⟩ := applyProjectUpdate_ok ha
  have hgid : ∀ q : Project, (if q.id == pid then proj2 else q).id = q.id := by
    intro q
    split
    next hb => rw [hid2, hpid]; exact (beq_iff_eq.mp hb).symm
    next => rfl
  refine ⟨hnp, hnt, ?_, htb, ?_, htn, ?_, ?_⟩
  · intro q2 hq2
    obtain ⟨q, hq, rfl⟩ := List.mem_map.mp hq2
    rw [hgid q]
    exact hpb q hq
  · rw [map_comp_id_eq hgid]
    exact hpn
  · intro t ht k hk
    rcases hrv t ht k hk with h0 | ⟨q, hq, hqk⟩
    · exact Or.inl h0
    · refine Or.inr ⟨if q.id == pid then proj2 else q, List.mem_map.mpr ⟨q, hq, rfl⟩, ?_⟩
      rw [hgid q]
      exact hqk
  · intro t ht q2 hq2 hpid2 td htd
    obtain ⟨q, hq, rfl⟩ := List.mem_map.mp hq2
    by_cases hb : (q.id == pid) = true
    · rw [if_pos hb] at hpid2 ⊢
      have hp2id : proj2.id = pid := by rw [hid2, hpid]
      rcases hdl with ⟨hdnone, hdeq⟩ | hdsome
      · rw [hdeq]
        apply hinv t ht proj hpm _ td htd
        rw [hpid2, hp2id, hpid]
      · have hval2 : checkTasksAgainst (projectTasks db pid) proj2.deadline = none := by
          unfold projectUpdateValidation at hval
          rw [hdsome] at hval
          simpa only using hval
        have htmem : t ∈ projectTasks db pid := by
          apply List.mem_filter.mpr
          refine ⟨ht, ?_⟩
          rw [hpid2, hp2id]
          simp
        have hchk := checkTasksAgainst_none hval2 t htmem
        rw [htd] at hchk
        exact check_none_le hchk
    · rw [if_neg hb] at hpid2 ⊢
      exact hinv t ht q hq hpid2 td htd

theorem wf_update_task {db : DB} {tid : Int} {u : TaskUpdate} {db2 : DB} (hwf : WF db)
    (h : update_task db tid u = Except.ok db2) : WF db2 := by
  obtain ⟨hnp, hnt, hpb, htb, hpn, htn, hrv, hinv⟩ := hwf
  obtain ⟨task, task2, hf, hval, ha, rfl⟩ := update_task_ok_elim h
  obtain ⟨htm, htaskid⟩ := findTask_mem hf
  obtain ⟨hid2, hdl2, hpid2⟩ := applyTaskUpdate_ok ha
  have hgid : ∀ t : Task, (if t.id == tid then task2 else t).id = t.id := by
    intro t
    split
    next hb => rw [hid2, htaskid]; exact (beq_iff_eq.mp hb).symm
    next => rfl
  refine ⟨hnp, hnt, hpb, ?_, hpn, ?_, ?_, ?_⟩
  · intro t2 ht2
    obtain ⟨t, ht, rfl⟩ := List.mem_map.mp ht2
    rw [hgid t]
    exact htb t ht
  · rw [map_comp_id_eq hgid]
    exact htn
  · intro t2 ht2 k hk
    obtain ⟨t, ht, rfl⟩ := List.mem_map.mp ht2
    by_cases hb : (t.id == tid) = true
    · rw [if_pos hb] at hk
      rw [hpid2] at hk
      have heff : effectiveProjectId task u = some k := effectiveProjectId_of_set hk
      by_cases hk0 : k = 0
      · exact Or.inl hk0
      · have hv2 : projectRefValidation db (some k) (effectiveDeadline task u) = none := by
          rw [← heff]
          exact hval
        obtain ⟨proj, hfp, _⟩ := projectRefValidation_none_elim hk0 hv2
        obtain ⟨hm, hidp⟩ := findProject_mem hfp
        exact Or.inr ⟨proj, hm, hidp⟩
    · rw [if_neg hb] at hk
      exact hrv t ht k hk
  · intro t2 ht2 q hq hpidq td htd
    obtain ⟨t, ht, rfl⟩ := List.mem_map.mp ht2
    by_cases hb : (t.id == tid) = true
    · rw [if_pos hb] at hpidq htd
      rw [hpid2] at hpidq
      rw [hdl2] at htd
      have heffp : effectiveProjectId task u = some q.id := effectiveProjectId_of_set hpidq
      have heffd : effectiveDeadline task u = some td := effectiveDeadline_of_set htd
      have hq0 : q.id ≠ 0 := by
        have := (hpb q hq).1
        omega
      have hv2 : projectRefValidation db (some q.id) (effectiveDeadline task u) = none := by
        rw [← heffp]
        exact hval
      obtain ⟨proj, hfp, hc⟩ := projectRefValidation_none_elim hq0 hv2
      obtain ⟨hm, hidp⟩ := findProject_mem hfp
      have hpq : proj = q := List.inj_on_of_nodup_map hpn hm hq hidp
      subst hpq
      rw [heffd] at hc
      exact check_none_le hc
    · rw [if_neg hb] at hpidq htd
      exact hinv t ht q hq hpidq td htd

theorem wf_link {db : DB} {tid pid : Int} {db2 : DB} (hwf : WF db)
    (h : link_task_to_project db tid pid = Except.ok db2) : WF db2 := by
  obtain ⟨hnp, hnt, hpb, htb, hpn, htn, hrv, hinv⟩ := hwf
  obtain ⟨task, proj, hf, hp, hc, rfl⟩ := link_ok_elim h
  obtain ⟨htm, htaskid⟩ := findTask_mem hf
  obtain ⟨hpm, hpidp⟩ := findProject_mem hp
  have hgid : ∀ t : Task,
      (if t.id == tid then { task with project_id := some pid } else t).id = t.id := by
    intro t
    split
    next hb => show task.id = t.id; rw [htaskid]; exact (beq_iff_eq.mp hb).symm
    next => rfl
  refine ⟨hnp, hnt, hpb, ?_, hpn, ?_, ?_, ?_⟩
  · intro t2 ht2
    obtain ⟨t, ht, rfl⟩ := List.mem_map.mp ht2
    rw [hgid t]
    exact htb t ht
  · rw [map_comp_id_eq hgid]
    exact htn
  · intro t2 ht2 k hk
    obtain ⟨t, ht, rfl⟩ := List.mem_map.mp ht2
    by_cases hb : (t.id == tid) = true
    · rw [if_pos hb] at hk
      have hpk : pid = k := by
        have : some pid = some k := hk
        injection this
      subst hpk
      exact Or.inr ⟨proj, hpm, hpidp⟩
    · rw [if_neg hb] at hk
      exact hrv t ht k hk
  · intro t2 ht2 q hq hpidq td htd
    obtain ⟨t, ht, rfl⟩ := List.mem_map.mp ht2
    by_cases hb : (t.id == tid) = true
    · rw [if_pos hb] at hpidq htd
      have hqid : pid = q.id := by
        have : some pid = some q.id := hpidq
        injection this
      have hpq : proj = q := List.inj_on_of_nodup_map hpn hpm hq (by rw [hpidp, hqid])
      subst hpq
      have htd2 : task.deadline = some td := htd
      rw [htd2] at hc
      exact check_none_le hc
    · rw [if_neg hb] at hpidq htd
      exact hinv t ht q hq hpidq td htd

theorem wf_runOp {db : DB} (hwf : WF db) (op : Op) : WF (runOp db op) := by
  cases op with
  | projCreate p => exact wf_create_project hwf p
  | projUpdate pid u =>
    cases h : update_project db pid u with
    | ok db2 => simpa only [runOp, h] using wf_update_project hwf h
    | error e => simpa only [runOp, h] using hwf
  | projDelete pid =>
    cases h : delete_project db pid with
    | ok db2 => simpa only [runOp, h] using wf_delete_project hwf h
    | error e => simpa only [runOp, h] using hwf
  | taskCreate tc =>
    cases h : create_task db tc with
    | ok db2 => simpa only [runOp, h] using wf_create_task hwf h
    | error e => simpa only [runOp, h] using hwf
  | taskUpdate tid u =>
    cases h : update_task db tid u with
    | ok db2 => simpa only [runOp, h] using wf_update_task hwf h
    | error e => simpa only [runOp, h] using hwf
  | taskDelete tid =>
    cases h : delete_task db tid with
    | ok db2 => simpa only [runOp, h] using wf_delete_task hwf h
    | error e => simpa only [runOp, h] using hwf
  | taskLink tid pid =>
    cases h : link_task_to_project db tid pid with
    | ok db2 => simpa only [runOp, h] using wf_link hwf h
    | error e => simpa only [runOp, h] using hwf

theorem reachable_wf {db : DB} (h : Reachable db) : WF db := by
  induction h with
  | empty => exact wf_empty
  | step op hr ih => exact wf_runOp ih op

/-- Claim C1: in every state reachable through the API operations
(project create/update/delete, task create/update/delete, link), every
task whose project_id refers to a stored project and whose deadline is
non-null satisfies task.deadline less than or equal to that project's
deadline. -/
theorem deadline_invariant_reachable (db : DB) (h : Reachable db) : DeadlineInvariant db :=
  (reachable_wf h).inv

/-- Witness for C1 at a concrete reachable state: the store built by
creating a project with deadline 10 and then a task under it with
deadline 8 satisfies the invariant. -/
theorem deadline_invariant_reachable_witness : DeadlineInvariant sampleDB :=
  deadline_invariant_reachable sampleDB
    (Reachable.step (Op.taskCreate ⟨"t", none, some 8, false, some 1⟩)
      (Reachable.step (Op.projCreate ⟨"p", 10⟩) Reachable.empty))

/-- Claim C2: check_deadline_consistency rejects exactly when both
deadlines are present and the task deadline is strictly greater than the
project deadline; equal deadlines and absent values always pass. -/
theorem check_rejects_iff (td pd ctx : Option Int) :
    (check_deadline_consistency td pd ctx).isSome ↔
      ∃ a b, td = some a ∧ pd = some b ∧ b < a := by
  constructor
  · intro h
    obtain ⟨e, he⟩ := Option.isSome_iff_exists.mp h
    obtain ⟨a, b, ha, hb, hlt, _⟩ := check_some_elim he
    exact ⟨a, b, ha, hb, hlt⟩
  · rintro ⟨a, b, rfl, rfl, hlt⟩
    rw [check_some_of_lt ctx hlt]
    rfl

/-- Counterexample to C3 as stated: with a supplied context id of 0 the
rejection carries the generic message, not the contextual one, because
`if task_id:` in Python is false at 0. -/
theorem check_context_zero_counterexample :
    check_deadline_consistency (some 5) (some 3) (some 0) = some ⟨400, genericDeadlineMsg⟩ ∧
      genericDeadlineMsg ≠ contextualDeadlineMsg 0 := by
  constructor
  · rfl
  · decide

/-- Claim C3 (amended): every rejection carries status 400 and a detail
message determined by the supplied context — the contextual wording when
a nonzero task id is supplied, and the generic wording when no context
is supplied or the supplied id is 0 (treated as absent by Python
truthiness). -/
theorem check_message_spec (td pd ctx : Option Int) (e : HTTPErr)
    (h : check_deadline_consistency td pd ctx = some e) :
    e.status = 400 ∧ e.detail = ctxDetail ctx ∧
      (∀ tid, ctx = some tid → tid ≠ 0 → e.detail = contextualDeadlineMsg tid) ∧
      (ctx = none → e.detail = genericDeadlineMsg) ∧
      (ctx = some 0 → e.detail = genericDeadlineMsg) := by
  obtain ⟨a, b, _, _, _, he⟩ := check_some_elim h
  subst he
  refine ⟨rfl, rfl, ?_, ?_, ?_⟩
  · rintro tid rfl h0
    show ctxDetail (some tid) = contextualDeadlineMsg tid
    simp [ctxDetail, h0]
  · rintro rfl
    rfl
  · rintro rfl
    rfl

/-- Witness for C3 (amended) at a concrete rejection with context id 7:
the detail equals ctxDetail (some 7), the contextual wording. -/
theorem check_message_spec_witness :
    check_deadline_consistency (some 5) (some 3) (some 7) =
      some ⟨400, contextualDeadlineMsg 7⟩ ∧
      (⟨400, contextualDeadlineMsg 7⟩ : HTTPErr).detail = ctxDetail (some 7) :=
  ⟨rfl, (check_message_spec (some 5) (some 3) (some 7) ⟨400, contextualDeadlineMsg 7⟩ rfl).2.1⟩

/-- Claim C4: remove_tzinfo converts an offset-carrying timestamp to the
timezone-naive UTC reading of the same instant, passes naive and absent
values through unchanged, and is idempotent. -/
theorem remove_tzinfo_spec :
    (∀ w off, remove_tzinfo (some ⟨w, some off⟩) = some ⟨w - off, none⟩) ∧
      (∀ w off, instantOf ⟨w - off, none⟩ = instantOf ⟨w, some off⟩) ∧
      (∀ w, remove_tzinfo (some ⟨w, none⟩) = some ⟨w, none⟩) ∧
      remove_tzinfo none = none ∧
      (∀ value, remove_tzinfo (remove_tzinfo value) = remove_tzinfo value) := by
  refine ⟨fun w off => rfl, fun w off => ?_, fun w => rfl, rfl, ?_⟩
  · unfold instantOf
    simp
  · intro value
    rcases value with _ | ⟨w, _ | off⟩ <;> rfl

theorem update_project_error_of_validation {db : DB} {pid : Int} {u : ProjectUpdate}
    {proj : Project} {e : HTTPErr}
    (hf : findProject db pid = some proj) (hv : projectUpdateValidation db pid u = some e) :
    update_project db pid u = Except.error (ApiError.http e.status e.detail) := by
  simp only [update_project, hf, hv]

theorem runOp_projUpdate_error {db : DB} {pid : Int} {u : ProjectUpdate} {e : ApiError}
    (h : update_project db pid u = Except.error e) : runOp db (Op.projUpdate pid u) = db := by
  simp only [runOp, h]

theorem runOp_taskUpdate_error {db : DB} {tid : Int} {u : TaskUpdate} {e : ApiError}
    (h : update_task db tid u = Except.error e) : runOp db (Op.taskUpdate tid u) = db := by
  simp only [runOp, h]

theorem runOp_taskLink_error {db : DB} {tid pid : Int} {e : ApiError}
    (h : link_task_to_project db tid pid = Except.error e) :
    runOp db (Op.taskLink tid pid) = db := by
  simp only [runOp, h]

theorem projectRefValidation_spec (db : DB) (p : Int) (dl : Option Int) (hp0 : p ≠ 0) :
    projectRefValidation db (some p) dl =
      match findProject db p with
      | none => some (ApiError.http 404 "Project not found")
      | some proj =>
        match check_deadline_consistency dl (some proj.deadline) none with
        | some e => some (ApiError.http e.status e.detail)
        | none => none := by
  show (if p = 0 then (none : Option ApiError)
    else
      match findProject db p with
      | none => some (ApiError.http 404 "Project not found")
      | some proj =>
        match check_deadline_consistency dl (some proj.deadline) none with
        | some e => some (ApiError.http e.status e.detail)
        | none => none) = _
  rw [if_neg hp0]

theorem projectRefValidation_check {db : DB} {p : Int} {dl : Option Int} {proj : Project}
    (hp0 : p ≠ 0) (hfp : findProject db p = some proj) :
    projectRefValidation db (some p) dl =
      match check_deadline_consistency dl (some proj.deadline) none with
      | some e => some (ApiError.http e.status e.detail)
      | none => none := by
  rw [projectRefValidation_spec db p dl hp0, hfp]

/-- Claim C5: when a project update body carries a deadline, every owned
task is checked against the new deadline with the task id as context —
a successful update implies every owned task passed exactly that check —
and whenever some owned task's deadline exceeds the new deadline, the
update is rejected with the contextual 400 error and the store is left
entirely unchanged. -/
theorem update_project_deadline_guard (db : DB) (pid : Int) (u : ProjectUpdate) (d : Int)
    (hd : u.deadline = some (some d))
    (hp : (findProject db pid).isSome)
    (hid : ∀ t ∈ projectTasks db pid, t.id ≠ 0) :
    ((∃ t ∈ projectTasks db pid, ∃ td, t.deadline = some td ∧ d < td) →
      ∃ t ∈ projectTasks db pid, ∃ td, t.deadline = some td ∧ d < td ∧
        update_project db pid u = Except.error (ApiError.http 400 (contextualDeadlineMsg t.id)) ∧
        runOp db (Op.projUpdate pid u) = db) ∧
    (∀ db2, update_project db pid u = Except.ok db2 →
      ∀ t ∈ projectTasks db pid,
        check_deadline_consistency t.deadline (some d) (some t.id) = none) := by
  constructor
  · intro hex
    obtain ⟨t, hmem, td, htd, hlt, hchk⟩ := checkTasksAgainst_some_of_violation hex
    obtain ⟨proj, hproj⟩ := Option.isSome_iff_exists.mp hp
    have hctx : ctxDetail (some t.id) = contextualDeadlineMsg t.id := by
      simp [ctxDetail, hid t hmem]
    have hchk2 : checkTasksAgainst (projectTasks db pid) d =
        some ⟨400, contextualDeadlineMsg t.id⟩ := by
      rw [hchk, hctx]
    have hv : projectUpdateValidation db pid u = some ⟨400, contextualDeadlineMsg t.id⟩ := by
      unfold projectUpdateValidation
      rw [hd]
      exact hchk2
    have herr := update_project_error_of_validation hproj hv
    exact ⟨t, hmem, td, htd, hlt, herr, runOp_projUpdate_error herr⟩
  · intro db2 hok t hmem
    obtain ⟨proj, proj2, hf, hv, ha, _⟩ := update_project_ok_elim hok
    have hca : checkTasksAgainst (projectTasks db pid) d = none := by
      unfold projectUpdateValidation at hv
      rw [hd] at hv
      exact hv
    exact checkTasksAgainst_none hca t hmem

/-- Witness for C5: lowering project 1's deadline to 3 while its owned
task has deadline 7 is rejected with the contextual message naming task
1, and the store is unchanged. -/
theorem update_project_deadline_guard_witness :
    update_project tightDB 1 ⟨none, some (some 3)⟩ =
      Except.error (ApiError.http 400 (contextualDeadlineMsg 1)) ∧
      runOp tightDB (Op.projUpdate 1 ⟨none, some (some 3)⟩) = tightDB := by
  obtain ⟨t, hmem, td, htd, hlt, herr, hrun⟩ :=
    (update_project_deadline_guard tightDB 1 ⟨none, some (some 3)⟩ 3 rfl (by decide)
        (by decide)).1
      ⟨lateTask, by decide, 7, rfl, by decide⟩
  have hmem2 : t ∈ [lateTask] := hmem
  have ht : t = lateTask := by simpa using hmem2
  subst ht
  exact ⟨herr, hrun⟩

/-- Counterexample to C6 as stated: in a reachable store holding a task
whose stored project_id is the falsy 0, an empty update body resolves
the effective project id to 0 — which names no stored project — and yet
the update succeeds instead of failing NotFound, because
`if new_task_project_id:` skips the lookup for 0. -/
theorem update_task_zero_pid_counterexample :
    Reachable zeroDB ∧
      findTask zeroDB 1 = some zeroTask ∧
      effectiveProjectId zeroTask noTaskUpd = some 0 ∧
      findProject zeroDB 0 = none ∧
      update_task zeroDB 1 noTaskUpd = Except.ok zeroDB :=
  ⟨Reachable.step (Op.taskCreate ⟨"t0", none, none, false, some 0⟩) Reachable.empty,
    rfl, rfl, rfl, rfl⟩

/-- Claim C6 (amended): update_task merges the effective project id and
deadline from the body and the stored row before validation; when the
effective project id is present and nonzero, the project is fetched
(404 if absent) and the checker runs with the generic message on the
effective deadline, fields being applied only on success; an effective
project id that is absent — or 0, which the truthiness guard treats as
absent — skips the lookup and check. -/
theorem update_task_effective_merge (db : DB) (tid : Int) (u : TaskUpdate) (task : Task)
    (h : findTask db tid = some task) :
    (∀ p, effectiveProjectId task u = some p → p ≠ 0 → findProject db p = none →
      update_task db tid u = Except.error (ApiError.http 404 "Project not found")) ∧
    (∀ p proj, effectiveProjectId task u = some p → p ≠ 0 → findProject db p = some proj →
      (∀ e, check_deadline_consistency (effectiveDeadline task u) (some proj.deadline) none =
          some e →
        update_task db tid u = Except.error (ApiError.http e.status e.detail) ∧
        runOp db (Op.taskUpdate tid u) = db) ∧
      (check_deadline_consistency (effectiveDeadline task u) (some proj.deadline) none = none →
        update_task db tid u = (applyTaskUpdate task u).map (fun t2 =>
          { db with tasks := db.tasks.map (fun t => if t.id == tid then t2 else t) }))) ∧
    (effectiveProjectId task u = none →
      update_task db tid u = (applyTaskUpdate task u).map (fun t2 =>
        { db with tasks := db.tasks.map (fun t => if t.id == tid then t2 else t) })) := by
  refine ⟨?_, ?_, ?_⟩
  · intro p heff hp0 hfp
    have hv : projectRefValidation db (effectiveProjectId task u) (effectiveDeadline task u) =
        some (ApiError.http 404 "Project not found") := by
      rw [heff, projectRefValidation_spec db p _ hp0, hfp]
    simp only [update_task, h, hv]
  · intro p proj heff hp0 hfp
    constructor
    · intro e hchk
      have hv : projectRefValidation db (effectiveProjectId task u) (effectiveDeadline task u) =
          some (ApiError.http e.status e.detail) := by
        rw [heff, projectRefValidation_check hp0 hfp, hchk]
      have herr : update_task db tid u = Except.error (ApiError.http e.status e.detail) := by
        simp only [update_task, h, hv]
      exact ⟨herr, runOp_taskUpdate_error herr⟩
    · intro hchk
      have hv : projectRefValidation db (effectiveProjectId task u) (effectiveDeadline task u) =
          none := by
        rw [heff, projectRefValidation_check hp0 hfp, hchk]
      simp only [update_task, h, hv]
      cases applyTaskUpdate task u <;> rfl
  · intro heff
    have hv : projectRefValidation db (effectiveProjectId task u) (effectiveDeadline task u) =
        none := by
      rw [heff]
      rfl
    simp only [update_task, h, hv]
    cases applyTaskUpdate task u <;> rfl

/-- Witness for C6 (amended): updating sampleTask's deadline to 12 under
sampleProj (deadline 10) is rejected with the generic 400 message and
leaves the store unchanged. -/
theorem update_task_effective_merge_witness :
    update_task sampleDB 1 lateUpd = Except.error (ApiError.http 400 genericDeadlineMsg) ∧
      runOp sampleDB (Op.taskUpdate 1 lateUpd) = sampleDB :=
  ((update_task_effective_merge sampleDB 1 lateUpd sampleTask rfl).2.1 1 sampleProj rfl
      (by decide) rfl).1 ⟨400, genericDeadlineMsg⟩ rfl

/-- Claim C7 (code bug): creating a task with project_id 0 — an id that
names no stored project — does not yield 404: the truthiness guard
`if task_create.project_id:` skips the existence check and the deadline
check, and the task is persisted with a dangling reference, contrary to
the handler docstring and the spec. -/
theorem create_task_zero_pid_bug :
    findProject DB.empty 0 = none ∧
      create_task DB.empty ⟨"t", none, none, false, some 0⟩ =
        Except.ok ⟨[], [⟨1, "t", none, none, false, some 0⟩], 1, 2⟩ :=
  ⟨rfl, rfl⟩

/-- Claim C8: link_task_to_project fails 404 for a missing task before
the project is consulted, then 404 for a missing project; with both
present, the stored task deadline is checked against the project
deadline with the generic message, a violation rejecting the call with
the store — in particular the stored project_id — unchanged, and a pass
reassigning project_id. -/
theorem link_task_spec (db : DB) (tid pid : Int) :
    (findTask db tid = none →
      link_task_to_project db tid pid = Except.error (ApiError.http 404 "Task not found")) ∧
    (∀ task, findTask db tid = some task → findProject db pid = none →
      link_task_to_project db tid pid = Except.error (ApiError.http 404 "Project not found")) ∧
    (∀ task proj, findTask db tid = some task → findProject db pid = some proj →
      (∀ td, task.deadline = some td → proj.deadline < td →
        link_task_to_project db tid pid = Except.error (ApiError.http 400 genericDeadlineMsg) ∧
        runOp db (Op.taskLink tid pid) = db) ∧
      (check_deadline_consistency task.deadline (some proj.deadline) none = none →
        link_task_to_project db tid pid = Except.ok { db with
          tasks := db.tasks.map (fun t =>
            if t.id == tid then { task with project_id := some pid } else t) })) := by
  refine ⟨?_, ?_, ?_⟩
  · intro hf
    simp only [link_task_to_project, hf]
  · intro task hf hp
    simp only [link_task_to_project, hf, hp]
  · intro task proj hf hp
    constructor
    · intro td htd hlt
      have hchk : check_deadline_consistency task.deadline (some proj.deadline) none =
          some ⟨400, genericDeadlineMsg⟩ := by
        rw [htd]
        exact check_some_of_lt none hlt
      have herr : link_task_to_project db tid pid =
          Except.error (ApiError.http 400 genericDeadlineMsg) := by
        simp only [link_task_to_project, hf, hp, hchk]
      exact ⟨herr, runOp_taskLink_error herr⟩
    · intro hchk
      simp only [link_task_to_project, hf, hp, hchk]

/-- Witness for C8: linking freeTask (deadline 7, no project) to
tightProj (deadline 5) is rejected with the generic 400 message and
leaves the store — including the task's null project_id — unchanged. -/
theorem link_task_spec_witness :
    link_task_to_project linkDB 1 1 = Except.error (ApiError.http 400 genericDeadlineMsg) ∧
      runOp linkDB (Op.taskLink 1 1) = linkDB :=
  ((link_task_spec linkDB 1 1).2.2 freeTask tightProj rfl rfl).1 7 rfl (by decide)

/-- Counterexample to C9 as stated: dangleDB is reachable and holds
zeroTask, whose reference is the dangling falsy id 0; after deleting
project 1 (which owns a task), zeroTask survives with a project
reference that is neither null nor the id of any stored project. -/
theorem delete_project_dangling_counterexample :
    Reachable dangleDB ∧
      delete_project dangleDB 1 = Except.ok dangleDB2 ∧
      zeroTask ∈ dangleDB2.tasks ∧
      ¬ (zeroTask.project_id = none ∨
          ∃ p ∈ dangleDB2.projects, zeroTask.project_id = some p.id) := by
  refine ⟨?_, rfl, ?_, ?_⟩
  · exact Reachable.step (Op.taskCreate ⟨"t1", none, none, false, some 1⟩)
      (Reachable.step (Op.projCreate ⟨"p", 10⟩)
        (Reachable.step (Op.taskCreate ⟨"t0", none, none, false, some 0⟩) Reachable.empty))
  · decide
  · decide

/-- Claim C9 (amended): deleting a project unlinks every owned task: in
the resulting store no task references the deleted id, each formerly
owned task survives with its project reference set to null, and other
tasks survive unchanged — so a reference that was already dangling
before the deletion (the falsy id 0 admitted at creation) stays
dangling rather than naming a stored project. -/
theorem delete_project_unlinks (db : DB) (pid : Int) (db2 : DB)
    (h : delete_project db pid = Except.ok db2) :
    (∀ t ∈ db2.tasks, t.project_id ≠ some pid) ∧
      (∀ t ∈ db.tasks, t.project_id = some pid →
        (⟨t.id, t.title, t.description, t.deadline, t.completed, none⟩ : Task) ∈ db2.tasks) ∧
      (∀ t ∈ db.tasks, t.project_id ≠ some pid → t ∈ db2.tasks) := by
  obtain ⟨_, rfl⟩ := delete_project_ok_elim h
  refine ⟨?_, ?_, ?_⟩
  · intro t2 ht2
    obtain ⟨t, ht, rfl⟩ := List.mem_map.mp ht2
    by_cases hb : (t.project_id == some pid) = true
    · rw [if_pos hb]
      simp
    · rw [if_neg hb]
      intro hcon
      rw [hcon] at hb
      simp at hb
  · intro t ht hpid
    refine List.mem_map.mpr ⟨t, ht, ?_⟩
    have hb : (t.project_id == some pid) = true := by simp [hpid]
    rw [if_pos hb]
  · intro t ht hpid
    refine List.mem_map.mpr ⟨t, ht, ?_⟩
    have hb : (t.project_id == some pid) = false := beq_eq_false_iff_ne.mpr hpid
    simp [hb]

/-- Witness for C9 (amended): deleting project 1 from ownedDB leaves its
owned task stored with a null project reference. -/
theorem delete_project_unlinks_witness :
    delete_project ownedDB 1 = Except.ok ownedDB2 ∧
      (⟨1, "t", none, none, false, none⟩ : Task) ∈ ownedDB2.tasks :=
  ⟨rfl, (delete_project_unlinks ownedDB 1 ownedDB2 rfl).2.1
    ⟨1, "t", none, none, false, some 1⟩ (by decide) rfl⟩

/-- Claim C10: a task-update field explicitly set to null is treated as
absent while resolving the effective values (validation uses the stored
value), yet the null is still written on success — so a task is
validated against the very project it is being unlinked from while the
stored field becomes null. -/
theorem update_task_explicit_null (db : DB) (tid : Int) (u : TaskUpdate) (task : Task)
    (h : findTask db tid = some task) :
    (u.project_id = some none → effectiveProjectId task u = task.project_id) ∧
      (u.deadline = some none → effectiveDeadline task u = task.deadline) ∧
      (∀ t2, applyTaskUpdate task u = Except.ok t2 →
        (u.project_id = some none → t2.project_id = none) ∧
        (u.deadline = some none → t2.deadline = none)) ∧
      (∀ db2, update_task db tid u = Except.ok db2 →
        ∃ t2, applyTaskUpdate task u = Except.ok t2 ∧ t2 ∈ db2.tasks) := by
  refine ⟨?_, ?_, ?_, ?_⟩
  · intro hu
    unfold effectiveProjectId
    rw [hu]
  · intro hu
    unfold effectiveDeadline
    rw [hu]
  · intro t2 ha
    obtain ⟨_, hdl, hpid⟩ := applyTaskUpdate_ok ha
    constructor
    · intro hu
      rw [hpid]
      unfold setNullable
      rw [hu]
    · intro hu
      rw [hdl]
      unfold setNullable
      rw [hu]
  · intro db2 hok
    obtain ⟨task3, task2, hf2, hv, ha, rfl⟩ := update_task_ok_elim hok
    rw [h] at hf2
    obtain rfl := (Option.some_inj.mp hf2).symm
    obtain ⟨htm, htid⟩ := findTask_mem h
    refine ⟨task2, ha, ?_⟩
    refine List.mem_map.mpr ⟨task3, htm, ?_⟩
    rw [if_pos (beq_iff_eq.mpr htid)]

/-- Witness for C10: updating sampleTask with deadline 9 and an explicit
null project_id validates against the stored project reference (project
1) and then stores the task unlinked with deadline 9. -/
theorem update_task_explicit_null_witness :
    effectiveProjectId sampleTask unlinkUpd = sampleTask.project_id ∧
      (∃ t2, applyTaskUpdate sampleTask unlinkUpd = Except.ok t2 ∧ t2 ∈ unlinkedDB.tasks) :=
  ⟨(update_task_explicit_null sampleDB 1 unlinkUpd sampleTask rfl).1 rfl,
    (update_task_explicit_null sampleDB 1 unlinkUpd sampleTask rfl).2.2.2 unlinkedDB rfl⟩

end App
